import Mathlib

/-!
Shallow embedding of `src/lib.rs` of the wasm-game-of-life crate.

The Rust code implements Conway's Game of Life on a toroidal grid:
a `Universe` holds a `width`, a `height` and a flat row-major buffer
`cells : Vec<Cell>`.  Machine integers (`u32`, `usize`, `u8`) are modelled
as `Nat` (the quantities involved — dimensions, flat indices, neighbor
counts bounded by 8 — stay far below any wrap point on inputs of interest).
Rust slice indexing panics when out of bounds; we model every indexed read
and indexed write fallibly with `Option`, so a panic is `none`.
-/

inductive Cell : Type where
  | Dead : Cell
  | Alive : Cell
deriving DecidableEq, Repr

/-- `cell as u8` — the numeric value of a cell (`Dead = 0`, `Alive = 1`). -/
def Cell.toU8 : Cell → Nat
  | Cell.Dead => 0
  | Cell.Alive => 1

structure Universe : Type where
  width : Nat
  height : Nat
  cells : List Cell
deriving DecidableEq, Repr

namespace Universe

/-- `fn get_index(&self, row, column) -> usize { (row * self.width + column) as usize }` -/
def get_index (u : Universe) (row column : Nat) : Nat :=
  row * u.width + column

/-- Fallible read `self.cells[idx]`: `none` models the Rust index panic. -/
def getCell (cells : List Cell) (idx : Nat) : Option Cell :=
  cells.get? idx

/-- Fallible write `cells[idx] = c`: `none` models the Rust index panic. -/
def setCell (cells : List Cell) (idx : Nat) (c : Cell) : Option (List Cell) :=
  if idx < cells.length then some (cells.set idx c) else none

/-- `fn live_neighbor_count(&self, row, column) -> u8`: iterate `delta_row`
over the literal array `[self.height - 1, 0, 1]` and `delta_col` over
`[self.width - 1, 0, 1]`, skip the pair whose two values are `0`, and sum
the cell values at `((row + delta_row) % height, (column + delta_col) % width)`. -/
def live_neighbor_count (u : Universe) (row column : Nat) : Option Nat :=
  [u.height - 1, 0, 1].foldlM (fun count delta_row =>
    [u.width - 1, 0, 1].foldlM (fun count delta_col =>
      if delta_row = 0 ∧ delta_col = 0 then
        pure count
      else do
        let neighbor_row := (row + delta_row) % u.height
        let neighbor_col := (column + delta_col) % u.width
        let idx := u.get_index neighbor_row neighbor_col
        let c ← getCell u.cells idx
        pure (count + c.toU8)) count) 0

/-- `pub fn get_cells(&self) -> &[Cell]` -/
def get_cells (u : Universe) : List Cell :=
  u.cells

/-- `pub fn set_cells(&mut self, cells: &[(u32, u32)])`: for each pair in
order, write `Cell::Alive` at flat index `get_index(row, col)`. -/
def set_cells (u : Universe) (cs : List (Nat × Nat)) : Option Universe := do
  let cells ← cs.foldlM (fun cells p =>
    setCell cells (u.get_index p.1 p.2) Cell.Alive) u.cells
  pure { u with cells := cells }

/-- The `match (cell, live_neighbors)` in `tick`, arm by arm in source order. -/
def next_cell_rule (cell : Cell) (live_neighbors : Nat) : Cell :=
  if cell = Cell.Alive ∧ live_neighbors < 2 then Cell.Dead
  else if (cell = Cell.Alive ∧ live_neighbors = 2) ∨
          (cell = Cell.Alive ∧ live_neighbors = 3) then Cell.Alive
  else if cell = Cell.Alive ∧ live_neighbors > 3 then Cell.Dead
  else if cell = Cell.Dead ∧ live_neighbors = 3 then Cell.Alive
  else cell

/-- The body of `tick`'s inner loop for a given `(row, col)`: read the old
cell and its live-neighbor count from `self.cells`, write the rule's result
into `next` at the same flat index. -/
def tickStep (u : Universe) (next : List Cell) (row col : Nat) :
    Option (List Cell) := do
  let idx := u.get_index row col
  let cell ← getCell u.cells idx
  let live_neighbors ← u.live_neighbor_count row col
  setCell next idx (next_cell_rule cell live_neighbors)

/-- `pub fn tick(&mut self)`: clone the buffer, then
`for row in 0..self.width { for col in 0..self.height { ... } }`
(the source iterates `row` up to `width` and `col` up to `height`),
finally replace `self.cells` with the new buffer. -/
def tick (u : Universe) : Option Universe := do
  let next ← (List.range u.width).foldlM (fun next row =>
    (List.range u.height).foldlM (fun next col =>
      u.tickStep next row col) next) u.cells
  pure { u with cells := next }

/-- The unused `_spaceship` index array computed in `new` (with `width = 8`). -/
def spaceshipPattern (width : Nat) : List Nat :=
  [1, 4, width, 2 * width, 2 * width + 4, width * 3,
   width * 3 + 1, width * 3 + 2, width * 3 + 3]

/-- The unused `_oscillator` index array computed in `new` (with `width = 8`). -/
def oscillatorPattern (width : Nat) : List Nat :=
  [width * 7 + width / 2 - 1, width * 7 + width / 2,
   width * 7 + width / 2 + 1]

/-- `pub fn new() -> Universe`: width and height are 8; each of the
`width * height` cells draws one value from the external random source
(`js_sys::Math::random()`, modelled as a stream `rand : Nat → ℚ`) and is
`Alive` iff that value is `< 0.4`.  The `_spaceship` and `_oscillator`
arrays are computed but never used. -/
def new (rand : Nat → ℚ) : Universe :=
  let width := 8
  let height := 8
  let cells := (List.range (width * height)).map (fun i =>
    if rand i < 2 / 5 then Cell.Alive else Cell.Dead)
  { width := width, height := height, cells := cells }

/-- Rust's `slice::chunks`: successive pieces of length `w`, the last one
possibly shorter; `chunks(0)` panics in Rust, and `render` below guards
that case, so the `w = 0` branch here is never reached from `render`. -/
def chunksOf (w : Nat) (l : List Cell) : List (List Cell) :=
  if w = 0 then []
  else if l = [] then []
  else l.take w :: chunksOf w (l.drop w)
termination_by l.length
decreasing_by
  rename_i hw hl
  have h1 : 0 < l.length := List.length_pos.mpr hl
  have h2 : 0 < w := Nat.pos_of_ne_zero hw
  simp only [List.length_drop]
  omega

/-- `impl fmt::Display for Universe` / `pub fn render(&self) -> String`:
for each width-sized chunk of the buffer write `'◻'` for `Dead` and `'◼'`
for `Alive`, then a newline.  `chunks(0)` panics in Rust, modelled as
`none`. -/
def render (u : Universe) : Option String :=
  if u.width = 0 then none
  else some (String.join ((chunksOf u.width u.cells).map (fun line =>
    String.mk (line.map (fun cell =>
      if cell = Cell.Dead then '◻' else '◼')) ++ "\n")))

/-- `pub fn set_width(&mut self, width: u32)`: store the new width and
rebuild `cells` as `width * self.height` dead cells. -/
def set_width (u : Universe) (width : Nat) : Universe :=
  { u with
    width := width
    cells := (List.range (width * u.height)).map (fun _ => Cell.Dead) }

/-- `pub fn set_height(&mut self, height: u32)`: store the new height and
rebuild `cells` as `self.width * height` dead cells. -/
def set_height (u : Universe) (height : Nat) : Universe :=
  { u with
    height := height
    cells := (List.range (u.width * height)).map (fun _ => Cell.Dead) }

/-- The dimension invariant of the spec: the buffer length is `width * height`. -/
def dimInv (u : Universe) : Prop :=
  u.cells.length = u.width * u.height

instance (u : Universe) : Decidable u.dimInv := by
  unfold dimInv
  infer_instance

/-- Total spec-side accessor: the cell stored at `(row, col)`,
defaulting to `Dead` out of range (used only under `dimInv` in bounds). -/
def cellAt (u : Universe) (row col : Nat) : Cell :=
  u.cells.getD (u.get_index row col) Cell.Dead

end Universe

/-! ## Test fixtures -/

/-- A `w × h` universe (width `w`, height `h`) whose `Alive` cells are
exactly the listed `(row, col)` pairs. -/
def gridOf (w h : Nat) (alive : List (Nat × Nat)) : Universe :=
  { width := w
    height := h
    cells := (List.range (w * h)).map (fun i =>
      if alive.any (fun p => p.1 * w + p.2 = i) then Cell.Alive else Cell.Dead) }

/-- Width 2, height 3, every cell `Alive`. -/
def allAlive23 : Universe :=
  { width := 2, height := 3, cells := List.replicate 6 Cell.Alive }

/-! ## C1 -/

/-- C1: falsified (code bug). On the universe of width 2 and height 3 with
every cell `Alive`, every cell has 8 live neighbors before the tick, so the
Life rule sends every cell — in particular cell `(2, 1)`, flat index 5 — to
`Dead`; but `tick` iterates `row` only up to `width = 2`, never recomputes
flat index 5, and leaves that cell `Alive`. -/
theorem C1_tick_skips_cell_2_1 :
    Universe.live_neighbor_count allAlive23 2 1 = some 8 ∧
    Universe.next_cell_rule Cell.Alive 8 = Cell.Dead ∧
    Universe.cellAt allAlive23 2 1 = Cell.Alive ∧
    Universe.tick allAlive23 =
      some { width := 2, height := 3,
             cells := [Cell.Dead, Cell.Dead, Cell.Dead,
                       Cell.Dead, Cell.Dead, Cell.Alive] } := by
  refine ⟨rfl, rfl, rfl, rfl⟩

/-! ## C4 -/

/-- C4: falsified in general (code bug), though true on square grids.
On the square 5×5 grid a horizontal blinker at row 2, columns 1..3, becomes
the vertical blinker at column 2, rows 1..3, after one `tick`, and returns
after a second `tick`.  But on a 6-wide, 5-tall grid — also large enough
that the pattern does not wrap into itself — `tick` iterates `row` up to
`width = 6 > height`, reads flat index `5 * 6 = 30` out of a 30-cell
buffer, and panics (`none`) instead of advancing the blinker. -/
theorem C4_blinker_period_two_square_only :
    Universe.tick (gridOf 5 5 [(2, 1), (2, 2), (2, 3)]) =
      some (gridOf 5 5 [(1, 2), (2, 2), (3, 2)]) ∧
    Universe.tick (gridOf 5 5 [(1, 2), (2, 2), (3, 2)]) =
      some (gridOf 5 5 [(2, 1), (2, 2), (2, 3)]) ∧
    Universe.tick (gridOf 6 5 [(2, 1), (2, 2), (2, 3)]) = none := by
  refine ⟨by decide, by decide, by decide⟩

/-! ## C5 -/

/-- `(0..n).map(|_i| Cell::Dead).collect()` is `n` copies of `Dead`. -/
theorem range_map_dead (n : Nat) :
    (List.range n).map (fun _ => Cell.Dead) = List.replicate n Cell.Dead := by
  apply List.eq_replicate.mpr
  constructor
  · simp
  · intro b hb
    rcases List.mem_map.mp hb with ⟨i, _, hi⟩
    exact hi.symm

/-- C5: `set_width k` sets the width to `k` and replaces the buffer with
`k * height` `Dead` cells; `set_height k` sets the height to `k` and
replaces the buffer with `width * k` `Dead` cells.  No previously `Alive`
cell survives, whatever the prior contents were. -/
theorem C5_resize_resets (u : Universe) (k : Nat) (hk : 1 ≤ k) :
    (u.set_width k).width = k ∧
    (u.set_width k).height = u.height ∧
    (u.set_width k).cells = List.replicate (k * u.height) Cell.Dead ∧
    (u.set_height k).height = k ∧
    (u.set_height k).width = u.width ∧
    (u.set_height k).cells = List.replicate (u.width * k) Cell.Dead := by
  refine ⟨rfl, rfl, ?_, rfl, rfl, ?_⟩
  · exact range_map_dead (k * u.height)
  · exact range_map_dead (u.width * k)

/-- Witness for C5 at a concrete universe and `k = 2`. -/
theorem C5_resize_resets_witness :
    1 ≤ 2 ∧
    ((allAlive23.set_width 2).cells = List.replicate 6 Cell.Dead ∧
     (allAlive23.set_height 2).cells = List.replicate 4 Cell.Dead) := by
  refine ⟨by decide, (C5_resize_resets allAlive23 2 (by decide)).2.2.1, ?_⟩
  exact (C5_resize_resets allAlive23 2 (by decide)).2.2.2.2.2

/-! ## C9 -/

/-- Folding a pure-identity step over any list is the identity in `Option`. -/
theorem foldlM_pure_id {α β : Type} (l : List α) (init : β) :
    (l.foldlM (fun s _ => (pure s : Option β)) init) = pure init := by
  induction l generalizing init with
  | nil => rfl
  | cons a t ih => simpa [List.foldlM] using ih init

/-- C9: `set_width 0` and `set_height 0` are accepted and produce an empty
buffer, and on any universe with a zero dimension `tick` runs no loop
iterations and returns the state unchanged (in particular it never indexes
the buffer or takes a modulus by zero, so no failure occurs). -/
theorem C9_zero_dimensions (u : Universe) (h : u.width = 0 ∨ u.height = 0) :
    Universe.tick u = some u ∧
    (∀ v : Universe,
      (v.set_width 0).width = 0 ∧ (v.set_width 0).cells = [] ∧
      (v.set_height 0).height = 0 ∧ (v.set_height 0).cells = []) := by
  constructor
  · rcases h with h | h
    · have hr : List.range u.width = [] := by simp [h]
      simp only [Universe.tick, hr]
      rfl
    · have : ∀ next : List Cell, ∀ row : Nat,
          (List.range u.height).foldlM (fun next col =>
            u.tickStep next row col) next = pure next := by
        intro next row
        rw [h]
        rfl
      simp only [Universe.tick, this]
      rw [foldlM_pure_id]
      rfl
  · intro v
    refine ⟨rfl, ?_, rfl, ?_⟩
    · simp [Universe.set_width]
    · simp [Universe.set_height]

/-- Witness for C9 on a universe of width 3 and height 0. -/
theorem C9_zero_dimensions_witness :
    ((3 : Nat) = 0 ∨ (0 : Nat) = 0) ∧
    Universe.tick { width := 3, height := 0, cells := [] } =
      some { width := 3, height := 0, cells := [] } := by
  refine ⟨Or.inr rfl, ?_⟩
  exact (C9_zero_dimensions { width := 3, height := 0, cells := [] }
    (Or.inr rfl)).1

/-! ## C8 -/

/-- C8: for every behavior of the external random source (a stream of
values in `[0,1)`), `new` yields an 8×8 universe whose 64-cell buffer has
cell `i` `Alive` exactly when the `i`-th drawn value is `< 0.4`; the grid
is fully determined by the draws, so the `_spaceship` / `_oscillator`
example arrays are never applied to it. -/
theorem C8_new_random_seeding (rand : Nat → ℚ)
    (hr : ∀ i, 0 ≤ rand i ∧ rand i < 1) :
    (Universe.new rand).width = 8 ∧
    (Universe.new rand).height = 8 ∧
    (Universe.new rand).cells.length = 64 ∧
    ∀ i, i < 64 →
      (Universe.new rand).cells.get? i =
        some (if rand i < 2 / 5 then Cell.Alive else Cell.Dead) := by
  refine ⟨rfl, rfl, by simp [Universe.new], ?_⟩
  intro i hi
  simp [Universe.new, List.getElem?_map, List.getElem?_range, hi]

/-- Witness for C8 with the constant stream `1/2`:
the drawn value `1/2` is not `< 0.4`, so cell 0 is `Dead`. -/
theorem C8_new_random_seeding_witness :
    (Universe.new (fun _ => (1 : ℚ) / 2)).cells.get? 0 = some Cell.Dead := by
  have h := (C8_new_random_seeding (fun _ => (1 : ℚ) / 2)
    (fun i => ⟨by norm_num, by norm_num⟩)).2.2.2 0 (by norm_num)
  rw [h]
  norm_num

/-! ## C10 -/

/-- C10: `set_cells` validates nothing about its pairs.  Under the
dimension invariant, a pair whose flat index `row * width + column` is
still below `width * height` is written even when `column ≥ width`
(silently aliasing a cell of another row), while a pair whose flat index
reaches `width * height` makes the buffer indexing fail (`none`). -/
theorem C10_set_cells_unchecked (u : Universe) (row col : Nat)
    (hinv : u.dimInv) :
    (row * u.width + col < u.width * u.height →
      u.set_cells [(row, col)] =
        some { u with cells := u.cells.set (row * u.width + col) Cell.Alive }) ∧
    (u.width * u.height ≤ row * u.width + col →
      u.set_cells [(row, col)] = none) := by
  have hlen : u.cells.length = u.width * u.height := hinv
  constructor
  · intro hlt
    simp [Universe.set_cells, Universe.setCell, Universe.get_index, hlen, hlt]
  · intro hge
    have hno : ¬ row * u.width + col < u.cells.length := by omega
    simp [Universe.set_cells, Universe.setCell, Universe.get_index, hno]

/-- Witness for C10 on a 2×2 dead grid: the pair `(0, 3)` has `column = 3
≥ width = 2` but flat index `3 < 4`, so it silently turns cell `(1, 1)`
alive; the pair `(2, 0)` has flat index `4 ≥ 4` and fails. -/
theorem C10_set_cells_unchecked_witness :
    (gridOf 2 2 []).dimInv ∧
    (gridOf 2 2 []).set_cells [(0, 3)] =
      some { gridOf 2 2 [] with
             cells := (gridOf 2 2 []).cells.set 3 Cell.Alive } ∧
    (gridOf 2 2 []).set_cells [(2, 0)] = none := by
  refine ⟨by decide, ?_, ?_⟩
  · exact (C10_set_cells_unchecked (gridOf 2 2 []) 0 3 (by decide)).1 (by decide)
  · exact (C10_set_cells_unchecked (gridOf 2 2 []) 2 0 (by decide)).2 (by decide)

/-! ## C3 -/

/-- A successful `setCell` preserves the buffer length. -/
theorem setCell_length {cells out : List Cell} {idx : Nat} {c : Cell}
    (h : Universe.setCell cells idx c = some out) :
    out.length = cells.length := by
  unfold Universe.setCell at h
  split at h
  · cases h
    simp
  · cases h

/-- An `Option`-valued fold whose step preserves buffer length preserves it
end to end. -/
theorem foldlM_length_eq {α : Type}
    (f : List Cell → α → Option (List Cell))
    (hf : ∀ s a s', f s a = some s' → s'.length = s.length) :
    ∀ (l : List α) (init out : List Cell),
      l.foldlM f init = some out → out.length = init.length := by
  intro l
  induction l with
  | nil =>
    intro init out h
    cases h
    rfl
  | cons a t ih =>
    intro init out h
    rw [List.foldlM_cons] at h
    rcases Option.bind_eq_some.mp h with ⟨s, hs, hrest⟩
    rw [ih s out hrest, hf init a s hs]

/-- A successful `tickStep` preserves the length of the `next` buffer. -/
theorem tickStep_length {u : Universe} {next out : List Cell} {row col : Nat}
    (h : u.tickStep next row col = some out) :
    out.length = next.length := by
  unfold Universe.tickStep at h
  rcases Option.bind_eq_some.mp h with ⟨cell, _, h2⟩
  rcases Option.bind_eq_some.mp h2 with ⟨k, _, h3⟩
  exact setCell_length h3

/-- C3: the dimension invariant `len(get_cells()) = width * height` holds
after `new` and is preserved by every operation: by `tick` and by
`set_cells` with in-bounds coordinates whenever they return a state, and
unconditionally by `set_width` and `set_height` (which resize the buffer
together with the dimension). -/
theorem C3_dimension_invariant (u u' : Universe) (rand : Nat → ℚ)
    (cs : List (Nat × Nat)) (k : Nat) (hinv : u.dimInv) :
    (Universe.new rand).dimInv ∧
    (Universe.tick u = some u' → u'.dimInv) ∧
    ((∀ p ∈ cs, p.1 < u.height ∧ p.2 < u.width) →
      u.set_cells cs = some u' → u'.dimInv) ∧
    (u.set_width k).dimInv ∧
    (u.set_height k).dimInv := by
  refine ⟨by simp [Universe.new, Universe.dimInv], ?_, ?_, ?_, ?_⟩
  · intro h
    unfold Universe.tick at h
    rcases Option.bind_eq_some.mp h with ⟨next, hfold, hpure⟩
    have hn : next.length = u.cells.length := by
      refine foldlM_length_eq _ ?_ _ _ _ hfold
      intro s row out hrow
      exact foldlM_length_eq _ (fun s' col out' hc => tickStep_length hc)
        _ _ _ hrow
    cases hpure
    show next.length = u.width * u.height
    rw [hn]
    exact hinv
  · intro _ h
    unfold Universe.set_cells at h
    rcases Option.bind_eq_some.mp h with ⟨cells, hfold, hpure⟩
    have hn : cells.length = u.cells.length :=
      foldlM_length_eq _ (fun s p out hp => setCell_length hp) _ _ _ hfold
    cases hpure
    show cells.length = u.width * u.height
    rw [hn]
    exact hinv
  · show _ = _
    simp [Universe.set_width]
  · show _ = _
    simp [Universe.set_height]

/-- Witness for C3 at a concrete universe, coordinate list and `k`. -/
theorem C3_dimension_invariant_witness :
    allAlive23.dimInv ∧
    (∀ p ∈ [((1 : Nat), (0 : Nat))], p.1 < allAlive23.height ∧
      p.2 < allAlive23.width) ∧
    (allAlive23.set_width 4).dimInv := by
  refine ⟨by decide, by decide, ?_⟩
  exact (C3_dimension_invariant allAlive23 allAlive23 (fun _ => 0)
    [(1, 0)] 4 (by decide)).2.2.2.1

/-! ## C6 -/

/-- In-bounds coordinates give in-range flat indices. -/
theorem index_lt_of_inbounds {w h r c : Nat} (hr : r < h) (hc : c < w) :
    r * w + c < w * h := by
  have h1 : r * w + c < (r + 1) * w := by
    rw [Nat.succ_mul]
    omega
  have h2 : (r + 1) * w ≤ h * w := Nat.mul_le_mul_right w hr
  rw [Nat.mul_comm h w] at h2
  omega

/-- Total version of the `set_cells` loop: set `Alive` at each pair's flat
index, in order. -/
def paintAlive (w : Nat) (cells : List Cell) (cs : List (Nat × Nat)) :
    List Cell :=
  cs.foldl (fun cells p => cells.set (p.1 * w + p.2) Cell.Alive) cells

theorem paintAlive_length (w : Nat) (cs : List (Nat × Nat)) :
    ∀ cells : List Cell, (paintAlive w cells cs).length = cells.length := by
  induction cs with
  | nil => intro cells; rfl
  | cons q t ih =>
    intro cells
    show (paintAlive w (cells.set (q.1 * w + q.2) Cell.Alive) t).length = _
    rw [ih]
    simp

/-- When every flat index is in range, the fallible `set_cells` fold
succeeds and computes the total paint. -/
theorem foldlM_setCell_eq (u : Universe) (cs : List (Nat × Nat)) :
    ∀ cells : List Cell,
      (∀ p ∈ cs, p.1 * u.width + p.2 < cells.length) →
      cs.foldlM (fun cells p =>
        Universe.setCell cells (u.get_index p.1 p.2) Cell.Alive) cells =
        some (paintAlive u.width cells cs) := by
  induction cs with
  | nil => intro cells _; rfl
  | cons q t ih =>
    intro cells hb
    rw [List.foldlM_cons]
    have hq : q.1 * u.width + q.2 < cells.length := hb q (List.mem_cons_self q t)
    have hset : Universe.setCell cells (u.get_index q.1 q.2) Cell.Alive =
        some (cells.set (q.1 * u.width + q.2) Cell.Alive) := by
      simp [Universe.setCell, Universe.get_index, hq]
    rw [hset]
    show t.foldlM _ (cells.set (q.1 * u.width + q.2) Cell.Alive) = _
    exact ih _ (fun p hp => by simpa using hb p (List.mem_cons_of_mem q hp))

/-- The painted buffer is `Alive` at exactly the addressed flat indices and
untouched elsewhere. -/
theorem paintAlive_get (w : Nat) (cs : List (Nat × Nat)) :
    ∀ (cells : List Cell) (i : Nat),
      (∀ p ∈ cs, p.1 * w + p.2 < cells.length) →
      (paintAlive w cells cs).get? i =
        if ∃ p ∈ cs, p.1 * w + p.2 = i then some Cell.Alive
        else cells.get? i := by
  induction cs with
  | nil =>
    intro cells i _
    simp [paintAlive]
  | cons q t ih =>
    intro cells i hb
    have hq : q.1 * w + q.2 < cells.length := hb q (List.mem_cons_self q t)
    have step : paintAlive w cells (q :: t) =
        paintAlive w (cells.set (q.1 * w + q.2) Cell.Alive) t := rfl
    rw [step, ih _ i (fun p hp => by
      simpa using hb p (List.mem_cons_of_mem q hp))]
    by_cases ht : ∃ p ∈ t, p.1 * w + p.2 = i
    · rcases ht with ⟨p, hp, hpi⟩
      rw [if_pos ⟨p, hp, hpi⟩, if_pos ⟨p, List.mem_cons_of_mem q hp, hpi⟩]
    · rw [if_neg ht, List.get?_set_of_lt' Cell.Alive cells hq]
      by_cases hqi : q.1 * w + q.2 = i
      · rw [if_pos hqi, if_pos ⟨q, List.mem_cons_self q t, hqi⟩]
      · have hno : ¬ ∃ p ∈ q :: t, p.1 * w + p.2 = i := by
          rintro ⟨p, hp, hpi⟩
          rcases List.mem_cons.mp hp with rfl | hp'
          · exact hqi hpi
          · exact ht ⟨p, hp', hpi⟩
        rw [if_neg hqi, if_neg hno]

/-- `set_cells` is the total paint whenever every flat index is in range. -/
theorem set_cells_eq_paint (u : Universe) (cs : List (Nat × Nat))
    (hbl : ∀ p ∈ cs, p.1 * u.width + p.2 < u.cells.length) :
    u.set_cells cs = some { u with cells := paintAlive u.width u.cells cs } := by
  unfold Universe.set_cells
  rw [foldlM_setCell_eq u cs u.cells hbl]
  rfl

/-- C6: with in-bounds coordinates (under the dimension invariant),
`set_cells` succeeds; the result is `Alive` at exactly the addressed flat
indices and unchanged elsewhere; applying the same list a second time
changes nothing more; and any permutation of the list yields the same
grid. -/
theorem C6_set_cells_mark_alive (u : Universe) (cs cs' : List (Nat × Nat))
    (hinv : u.dimInv)
    (hb : ∀ p ∈ cs, p.1 < u.height ∧ p.2 < u.width)
    (hperm : cs.Perm cs') :
    (∃ u', u.set_cells cs = some u' ∧
      u'.width = u.width ∧ u'.height = u.height ∧
      (∀ i, u'.cells.get? i =
        if ∃ p ∈ cs, p.1 * u.width + p.2 = i then some Cell.Alive
        else u.cells.get? i) ∧
      u'.set_cells cs = some u') ∧
    u.set_cells cs' = u.set_cells cs := by
  have hbl : ∀ p ∈ cs, p.1 * u.width + p.2 < u.cells.length := by
    intro p hp
    rw [hinv]
    exact index_lt_of_inbounds (hb p hp).1 (hb p hp).2
  have hb2 : ∀ p ∈ cs', p.1 < u.height ∧ p.2 < u.width :=
    fun p hp => hb p (hperm.mem_iff.mpr hp)
  have hbl2 : ∀ p ∈ cs', p.1 * u.width + p.2 < u.cells.length :=
    fun p hp => hbl p (hperm.mem_iff.mpr hp)
  have hsc : u.set_cells cs =
      some { u with cells := paintAlive u.width u.cells cs } :=
    set_cells_eq_paint u cs hbl
  refine ⟨⟨{ u with cells := paintAlive u.width u.cells cs }, hsc, rfl, rfl,
    ?_, ?_⟩, ?_⟩
  · intro i
    exact paintAlive_get u.width cs u.cells i hbl
  · have hbl' : ∀ p ∈ cs,
        p.1 * u.width + p.2 < (paintAlive u.width u.cells cs).length := by
      intro p hp
      rw [paintAlive_length]
      exact hbl p hp
    have hpp : paintAlive u.width (paintAlive u.width u.cells cs) cs =
        paintAlive u.width u.cells cs := by
      apply List.ext_get?
      intro i
      by_cases hex : ∃ p ∈ cs, p.1 * u.width + p.2 = i
      · rw [paintAlive_get u.width cs (paintAlive u.width u.cells cs) i hbl',
          paintAlive_get u.width cs u.cells i hbl, if_pos hex, if_pos hex]
      · rw [paintAlive_get u.width cs (paintAlive u.width u.cells cs) i hbl',
          if_neg hex]
    have h2 : Universe.set_cells
        { u with cells := paintAlive u.width u.cells cs } cs =
        some { u with
               cells := paintAlive u.width
                 (paintAlive u.width u.cells cs) cs } :=
      set_cells_eq_paint { u with cells := paintAlive u.width u.cells cs }
        cs hbl'
    rw [h2, hpp]
  · have hpaint : paintAlive u.width u.cells cs' =
        paintAlive u.width u.cells cs := by
      apply List.ext_get?
      intro i
      rw [paintAlive_get u.width cs' u.cells i hbl2,
        paintAlive_get u.width cs u.cells i hbl]
      refine if_congr ?_ rfl rfl
      constructor
      · rintro ⟨p, hp, hpi⟩
        exact ⟨p, hperm.mem_iff.mpr hp, hpi⟩
      · rintro ⟨p, hp, hpi⟩
        exact ⟨p, hperm.mem_iff.mp hp, hpi⟩
    rw [set_cells_eq_paint u cs' hbl2, hsc, hpaint]

/-- Witness for C6 on an empty 3×3 grid with a two-element coordinate list
and its transposition. -/
theorem C6_set_cells_mark_alive_witness :
    (gridOf 3 3 []).dimInv ∧
    (∀ p ∈ [((0 : Nat), (1 : Nat)), (2, 2)],
      p.1 < (gridOf 3 3 []).height ∧ p.2 < (gridOf 3 3 []).width) ∧
    (gridOf 3 3 []).set_cells [(2, 2), (0, 1)] =
      (gridOf 3 3 []).set_cells [(0, 1), (2, 2)] := by
  refine ⟨by decide, by decide, ?_⟩
  exact (C6_set_cells_mark_alive (gridOf 3 3 []) [(0, 1), (2, 2)]
    [(2, 2), (0, 1)] (by decide) (by decide)
    (List.Perm.swap (2, 2) (0, 1) [])).2

/-! ## C2 -/

/-- The eight toroidally wrapped neighbor positions of `(row, col)`, listed
in the iteration order of `live_neighbor_count` (top row, middle row with
the cell itself skipped, bottom row). -/
def neighborPositions (u : Universe) (row col : Nat) : List (Nat × Nat) :=
  [((row + (u.height - 1)) % u.height, (col + (u.width - 1)) % u.width),
   ((row + (u.height - 1)) % u.height, col % u.width),
   ((row + (u.height - 1)) % u.height, (col + 1) % u.width),
   (row % u.height, (col + (u.width - 1)) % u.width),
   (row % u.height, (col + 1) % u.width),
   ((row + 1) % u.height, (col + (u.width - 1)) % u.width),
   ((row + 1) % u.height, col % u.width),
   ((row + 1) % u.height, (col + 1) % u.width)]

/-- Under the dimension invariant, an in-bounds read yields `cellAt`. -/
theorem getCell_cellAt (u : Universe) (hinv : u.dimInv) {nr nc : Nat}
    (h1 : nr < u.height) (h2 : nc < u.width) :
    Universe.getCell u.cells (u.get_index nr nc) = some (u.cellAt nr nc) := by
  have hidx : u.get_index nr nc < u.cells.length := by
    rw [hinv]
    exact index_lt_of_inbounds h1 h2
  unfold Universe.getCell Universe.cellAt
  rw [List.get?_eq_getElem?, List.getD_eq_getElem?_getD,
    List.getElem?_eq_getElem hidx]
  rfl

/-- Summing cell values counts the `Alive` cells. -/
theorem sum_toU8_eq_count (l : List Cell) :
    (l.map Cell.toU8).sum = l.count Cell.Alive := by
  induction l with
  | nil => rfl
  | cons c t ih =>
    cases c <;> simp [List.count_cons, Cell.toU8, ih]
    omega

/-- C2: for a universe of size at least 3×3 satisfying the dimension
invariant and an in-bounds `(row, col)`, `live_neighbor_count` returns the
number of `Alive` cells among the eight toroidally wrapped offsets
`(row ± 1 mod height, col ± 1 mod width)` (the cell itself excluded),
a number at most 8; at `(0, 0)` those positions are exactly
`(h-1, w-1), (h-1, 0), (h-1, 1), (0, w-1), (0, 1), (1, w-1), (1, 0),
(1, 1)`. -/
theorem C2_live_neighbor_count_toroidal (u : Universe) (row col : Nat)
    (hw : 3 ≤ u.width) (hh : 3 ≤ u.height) (hinv : u.dimInv)
    (hrow : row < u.height) (hcol : col < u.width) :
    u.live_neighbor_count row col =
      some (((neighborPositions u row col).map
        (fun p => u.cellAt p.1 p.2)).count Cell.Alive) ∧
    ((neighborPositions u row col).map
        (fun p => u.cellAt p.1 p.2)).count Cell.Alive ≤ 8 ∧
    neighborPositions u 0 0 =
      [(u.height - 1, u.width - 1), (u.height - 1, 0), (u.height - 1, 1),
       (0, u.width - 1), (0, 1),
       (1, u.width - 1), (1, 0), (1, 1)] := by
  have hh0 : ¬ u.height - 1 = 0 := by omega
  have hw0 : ¬ u.width - 1 = 0 := by omega
  have hhpos : 0 < u.height := by omega
  have hwpos : 0 < u.width := by omega
  refine ⟨?_, ?_, ?_⟩
  · have hread : ∀ dr dc : Nat,
        Universe.getCell u.cells
          (u.get_index ((row + dr) % u.height) ((col + dc) % u.width)) =
        some (u.cellAt ((row + dr) % u.height) ((col + dc) % u.width)) :=
      fun dr dc =>
        getCell_cellAt u hinv (Nat.mod_lt _ hhpos) (Nat.mod_lt _ hwpos)
    rw [← sum_toU8_eq_count, List.map_map]
    simp only [neighborPositions, List.map_cons, List.map_nil, List.sum_cons,
      List.sum_nil, Function.comp]
    simp [Universe.live_neighbor_count, List.foldlM_cons, List.foldlM_nil,
      hh0, hw0, hread]
    omega
  · calc ((neighborPositions u row col).map
        (fun p => u.cellAt p.1 p.2)).count Cell.Alive
        ≤ ((neighborPositions u row col).map
            (fun p => u.cellAt p.1 p.2)).length := List.count_le_length _ _
      _ = 8 := by simp [neighborPositions]
  · have eh1 : (0 + (u.height - 1)) % u.height = u.height - 1 := by
      have : u.height - 1 < u.height := by omega
      simp [Nat.mod_eq_of_lt this]
    have eh3 : (0 + 1) % u.height = 1 := by
      have : (1 : Nat) < u.height := by omega
      simp [Nat.mod_eq_of_lt this]
    have ew1 : (0 + (u.width - 1)) % u.width = u.width - 1 := by
      have : u.width - 1 < u.width := by omega
      simp [Nat.mod_eq_of_lt this]
    have ew3 : (0 + 1) % u.width = 1 := by
      have : (1 : Nat) < u.width := by omega
      simp [Nat.mod_eq_of_lt this]
    simp [neighborPositions, eh1, eh3, ew1, ew3, Nat.zero_mod]

/-- Witness for C2 on the all-`Alive` 3×3 universe at `(0, 0)`:
all eight wrapped neighbors are `Alive`, so the count is 8. -/
theorem C2_live_neighbor_count_toroidal_witness :
    Universe.live_neighbor_count
      { width := 3, height := 3, cells := List.replicate 9 Cell.Alive }
      0 0 = some 8 := by
  have h := (C2_live_neighbor_count_toroidal
    { width := 3, height := 3, cells := List.replicate 9 Cell.Alive }
    0 0 (by decide) (by decide) (by decide) (by decide) (by decide)).1
  rw [h]
  decide

/-! ## C7 -/

/-- Unfolding equation of `Universe.chunksOf`. -/
theorem Universe.chunksOf_eq (w : Nat) (l : List Cell) :
    Universe.chunksOf w l =
      if w = 0 then []
      else if l = [] then []
      else l.take w :: Universe.chunksOf w (l.drop w) := by
  rw [Universe.chunksOf]

/-- A buffer of length `w * h` splits into the `h` row slices. -/
theorem Universe.chunksOf_full (w : Nat) (hw : w ≠ 0) :
    ∀ (h : Nat) (l : List Cell), l.length = w * h →
      Universe.chunksOf w l = (List.range h).map (fun r => (l.drop (r * w)).take w) := by
  intro h
  induction h with
  | zero =>
    intro l hl
    have hnil : l = [] := List.eq_nil_of_length_eq_zero (by simpa using hl)
    subst hnil
    rw [Universe.chunksOf_eq]
    simp
  | succ k ih =>
    intro l hl
    have hlne : l ≠ [] := by
      intro h0
      have h00 : l.length = 0 := by
        rw [h0]
        rfl
      rw [hl, Nat.mul_succ] at h00
      have hwpos : 0 < w := Nat.pos_of_ne_zero hw
      omega
    rw [Universe.chunksOf_eq, if_neg hw, if_neg hlne]
    have hdrop : (l.drop w).length = w * k := by
      rw [List.length_drop, hl, Nat.mul_succ]
      omega
    rw [ih (l.drop w) hdrop, List.range_succ_eq_map]
    simp only [List.map_cons, List.map_map]
    congr 1
    · simp
    · apply List.map_congr_left
      intro r _
      simp only [Function.comp]
      rw [List.drop_drop, Nat.succ_mul]
      congr 2
      omega

/-- Row `r` of the buffer, as a slice, is the row read through `cellAt`. -/
theorem row_slice_eq (u : Universe) (hinv : u.dimInv) (r : Nat)
    (hr : r < u.height) :
    (u.cells.drop (r * u.width)).take u.width =
      (List.range u.width).map (fun c => u.cellAt r c) := by
  apply List.ext_get?
  intro i
  by_cases hi : i < u.width
  · have hidx : r * u.width + i < u.cells.length := by
      rw [hinv]
      exact index_lt_of_inbounds hr hi
    rw [List.get?_take hi, List.get?_drop]
    rw [List.get?_eq_getElem?, List.getElem?_eq_getElem hidx]
    rw [List.get?_eq_getElem?, List.getElem?_map, List.getElem?_range hi,
      Option.map_some']
    unfold Universe.cellAt Universe.get_index
    rw [List.getD_eq_getElem?_getD, List.getElem?_eq_getElem hidx]
    rfl
  · have h1 : ((u.cells.drop (r * u.width)).take u.width).get? i = none := by
      apply List.get?_eq_none.mpr
      calc ((u.cells.drop (r * u.width)).take u.width).length
          ≤ u.width := by simp
        _ ≤ i := by omega
    have h2 : ((List.range u.width).map (fun c => u.cellAt r c)).get? i =
        none := by
      apply List.get?_eq_none.mpr
      simp
      omega
    rw [h1, h2]

/-- The source's glyph choice, rewritten against `Alive`. -/
theorem glyph_eq (c : Cell) :
    (if c = Cell.Dead then '◻' else '◼') =
      (if c = Cell.Alive then '◼' else '◻') := by
  cases c <;> rfl

/-- C7: under the dimension invariant and positive dimensions, `render`
succeeds and produces, row by row in row-major order, `height` lines of
`width` glyphs each, each line terminated by `"\n"`, where the glyph of a
cell is `'◼'` exactly when `get_cells` reports it `Alive` and `'◻'`
otherwise. -/
theorem C7_render_grid (u : Universe) (hw : 1 ≤ u.width) (hh : 1 ≤ u.height)
    (hinv : u.dimInv) :
    u.render = some (String.join ((List.range u.height).map (fun row =>
      String.mk ((List.range u.width).map (fun col =>
        if u.cellAt row col = Cell.Alive then '◼' else '◻')) ++ "\n"))) ∧
    ∀ row col, u.cellAt row col =
      (u.get_cells).getD (row * u.width + col) Cell.Dead := by
  constructor
  · unfold Universe.render
    rw [if_neg (by omega : ¬ u.width = 0)]
    rw [Universe.chunksOf_full u.width (by omega) u.height u.cells hinv,
      List.map_map]
    refine congrArg some (congrArg String.join (List.map_congr_left ?_))
    intro r hr
    show String.mk (((u.cells.drop (r * u.width)).take u.width).map
        (fun cell => if cell = Cell.Dead then '◻' else '◼')) ++ "\n" =
      String.mk ((List.range u.width).map (fun col =>
        if u.cellAt r col = Cell.Alive then '◼' else '◻')) ++ "\n"
    rw [row_slice_eq u hinv r (List.mem_range.mp hr), List.map_map]
    have hg : ∀ c ∈ List.range u.width,
        ((fun cell => if cell = Cell.Dead then '◻' else '◼') ∘
          (fun c => u.cellAt r c)) c =
        (fun col => if u.cellAt r col = Cell.Alive then '◼' else '◻') c :=
      fun c _ => glyph_eq (u.cellAt r c)
    rw [List.map_congr_left hg]
  · intro row col
    rfl

/-- Witness for C7 on a concrete 2×2 universe. -/
theorem C7_render_grid_witness :
    Universe.render
      { width := 2, height := 2,
        cells := [Cell.Alive, Cell.Dead, Cell.Dead, Cell.Alive] } =
      some "◼◻\n◻◼\n" := by
  have h := (C7_render_grid
    { width := 2, height := 2,
      cells := [Cell.Alive, Cell.Dead, Cell.Dead, Cell.Alive] }
    (by decide) (by decide) (by decide)).1
  rw [h]
  rfl
